import Mathlib

/-!
# Verification of the opencx auction-order codec and puzzle pipeline

A shallow embedding of `match/auctionorder.go` (package `match` of
`mit-dci/opencx`): the `AuctionOrder` wire codec (`Serialize`,
`SerializeSignable`, `Deserialize`), the domain operations (`Price`,
`SetAmountWant`, side predicates), the encrypted-order envelope and the
per-order puzzle-solving pipeline (`SolveRC5AuctionOrderAsync`).

Conventions of the embedding:
* Go byte slices and strings become `List Nat`, with well-formedness
  predicates stating each entry is `< 256` and lengths match the Go
  array sizes.
* Go `uint64` becomes `Nat` with explicit `% 2 ^ 64` where overflow can
  occur; well-formed orders carry `< 2 ^ 64` bounds.
* Go `float64` arithmetic is idealized over `ℚ`, with the IEEE special
  values (infinities, NaN) made explicit in `GoFloat`; division follows
  IEEE zero-divisor behavior. Conversion `uint64(x)` of a nonnegative
  float truncates toward zero, modeled by `Int.floor`.
* A Go runtime panic (slice index out of range) is an explicit
  `DeserResult.panic` outcome, distinct from a returned error.
* Fallible Go functions return `Except`/a result type instead of
  mutating a receiver; fields the Go code leaves untouched are carried
  over from the receiver argument.
-/

namespace Opencx

/-- Little-endian encoding of `n` into `w` bytes, as
`binary.LittleEndian.PutUint64` does for `w = 8` (the value is taken
mod `256 ^ w`). -/
def toLE : Nat → Nat → List Nat
  | 0, _ => []
  | w + 1, n => n % 256 :: toLE w (n / 256)

/-- Little-endian decoding of a byte list, as
`binary.LittleEndian.Uint64` does on an 8-byte slice. -/
def fromLE : List Nat → Nat
  | [] => 0
  | b :: rest => b + 256 * fromLE rest

@[simp] theorem toLE_length (w n : Nat) : (toLE w n).length = w := by
  induction w generalizing n with
  | zero => rfl
  | succ w ih => simp [toLE, ih]

theorem fromLE_toLE (w n : Nat) : fromLE (toLE w n) = n % 256 ^ w := by
  induction w generalizing n with
  | zero => simp [toLE, fromLE, Nat.mod_one]
  | succ w ih =>
      rw [toLE, fromLE, ih, pow_succ, mul_comm (256 ^ w) 256, Nat.mod_mul]

theorem fromLE_toLE_of_lt {w n : Nat} (h : n < 256 ^ w) :
    fromLE (toLE w n) = n := by
  rw [fromLE_toLE, Nat.mod_eq_of_lt h]

/-- Taking exactly the length of the left part of an append. -/
theorem take_append_exact {α : Type} {l r : List α} {n : Nat}
    (h : l.length = n) : (l ++ r).take n = l := by
  subst h; simp

/-- Dropping exactly the length of the left part of an append. -/
theorem drop_append_exact {α : Type} {l r : List α} {n : Nat}
    (h : l.length = n) : (l ++ r).drop n = r := by
  subst h; simp

/-- Modelled from the spec: the trading-pair type `Pair` (a 2-byte code;
`match.Pair` is repository code not under `src/`). Two asset bytes, a
2-byte serialization, and a size of 2. -/
structure Pair where
  AssetWant : Nat
  AssetHave : Nat
  deriving DecidableEq, Repr

/-- Modelled from the spec: `Pair.Serialize` emits the 2-byte code. -/
def Pair.Serialize (p : Pair) : List Nat :=
  [p.AssetWant, p.AssetHave]

/-- Modelled from the spec: `Pair.Size` is the fixed wire width, 2. -/
def Pair.Size : Nat := 2

/-- Modelled from the spec: `Pair.Deserialize` reads the 2-byte code. -/
def Pair.Deserialize (data : List Nat) : Except String Pair :=
  match data with
  | [w, h] => .ok ⟨w, h⟩
  | _ => .error "invalid pair byte length"

/-- A Go `float64` value with its special values explicit; finite values
are idealized as exact rationals. -/
inductive GoFloat where
  | finite (q : ℚ)
  | posInf
  | negInf
  | nan
  deriving DecidableEq, Repr

/-- IEEE division on idealized floats: a zero divisor yields a signed
infinity (or NaN for 0/0), otherwise the exact quotient. -/
def goDiv (a b : ℚ) : GoFloat :=
  if b = 0 then
    if a = 0 then .nan else if 0 < a then .posInf else .negInf
  else .finite (a / b)

/-- The bytes of the Go string literal "buy". -/
def buyBytes : List Nat := [98, 117, 121]

/-- The bytes of the Go string literal "sell". -/
def sellBytes : List Nat := [115, 101, 108, 108]

/-- `match.AuctionOrder`: a batch auction order. `Side` is the Go string
as bytes; `OrderbookPrice` is the display-only float, not serialized. -/
structure AuctionOrder where
  Pubkey : List Nat
  Side : List Nat
  TradingPair : Pair
  AmountHave : Nat
  AmountWant : Nat
  OrderbookPrice : GoFloat
  AuctionID : List Nat
  Nonce : List Nat
  Signature : List Nat
  deriving DecidableEq, Repr

/-- Well-formedness: the order is representable as a Go value — fixed
array fields have their declared lengths, all bytes fit in a byte, and
the `uint64` fields and slice lengths fit in 64 bits. -/
def AuctionOrder.wf (a : AuctionOrder) : Prop :=
  a.Pubkey.length = 33 ∧ (∀ b ∈ a.Pubkey, b < 256) ∧
  (∀ b ∈ a.Side, b < 256) ∧ a.Side.length < 2 ^ 64 ∧
  a.TradingPair.AssetWant < 256 ∧ a.TradingPair.AssetHave < 256 ∧
  a.AmountHave < 2 ^ 64 ∧ a.AmountWant < 2 ^ 64 ∧
  a.AuctionID.length = 32 ∧ (∀ b ∈ a.AuctionID, b < 256) ∧
  a.Nonce.length = 2 ∧ (∀ b ∈ a.Nonce, b < 256) ∧
  (∀ b ∈ a.Signature, b < 256) ∧ a.Signature.length < 2 ^ 64

instance (a : AuctionOrder) : Decidable a.wf := by
  unfold AuctionOrder.wf; infer_instance

/-- `AuctionOrder.IsBuySide`: the side string equals "buy". -/
def AuctionOrder.IsBuySide (a : AuctionOrder) : Bool :=
  a.Side == buyBytes

/-- `AuctionOrder.IsSellSide`: the side string equals "sell". -/
def AuctionOrder.IsSellSide (a : AuctionOrder) : Bool :=
  a.Side == sellBytes

/-- `AuctionOrder.Serialize`: pubkey[33] · pair[2] · amountHave[8 LE] ·
amountWant[8 LE] · sideLen[8 LE] · side · auctionID[32] · nonce[2] ·
sigLen[8 LE] · signature. -/
def AuctionOrder.Serialize (a : AuctionOrder) : List Nat :=
  a.Pubkey ++ a.TradingPair.Serialize ++
  toLE 8 a.AmountHave ++ toLE 8 a.AmountWant ++
  toLE 8 a.Side.length ++ a.Side ++
  a.AuctionID ++ a.Nonce ++
  toLE 8 a.Signature.length ++ a.Signature

/-- `AuctionOrder.SerializeSignable`: the same layout as `Serialize`
but stopping after the nonce — no signature length, no signature. -/
def AuctionOrder.SerializeSignable (a : AuctionOrder) : List Nat :=
  a.Pubkey ++ a.TradingPair.Serialize ++
  toLE 8 a.AmountHave ++ toLE 8 a.AmountWant ++
  toLE 8 a.Side.length ++ a.Side ++
  a.AuctionID ++ a.Nonce

/-- Outcome of `AuctionOrder.Deserialize`: success, a returned error, or
a Go runtime panic (slice index out of range). -/
inductive DeserResult (α : Type) where
  | ok (a : α)
  | err (msg : String)
  | panic
  deriving DecidableEq, Repr

/-- The minimum length computed by `AuctionOrder.Deserialize`:
`len(Nonce) + len(AuctionID) + binary.Size(OrderbookPrice) +
binary.Size(AmountWant) + binary.Size(AmountHave) + TradingPair.Size() +
len(Pubkey)` = 2 + 32 + 8 + 8 + 8 + 2 + 33 = 93. Note it counts the
8-byte `OrderbookPrice`, which is not on the wire, and none of the two
8-byte length prefixes beyond that stand-in. -/
def minimumDataLength : Nat := 2 + 32 + 8 + 8 + 8 + Pair.Size + 33

/-- `AuctionOrder.Deserialize`: rejects inputs shorter than
`minimumDataLength`, then consumes pubkey, pair, amountHave, amountWant,
a length-prefixed side, auctionID, nonce and a length-prefixed
signature. Each slice expression whose bound is not guaranteed by the
length check is guarded and yields `.panic` when out of range, exactly
where the Go code would panic. Fields the Go code does not write
(`OrderbookPrice`) keep the receiver's value. -/
def AuctionOrder.Deserialize (a : AuctionOrder) (data : List Nat) :
    DeserResult AuctionOrder :=
  if data.length < minimumDataLength then
    .err "Auction order cannot be less than bytes"
  else
    let pubkey := data.take 33
    let data1 := data.drop 33
    match Pair.Deserialize (data1.take 2) with
    | .error _ =>
        .err "Could not deserialize trading pair while deserializing auction order"
    | .ok tp =>
      let data2 := data1.drop 2
      let amountHave := fromLE (data2.take 8)
      let data3 := data2.drop 8
      let amountWant := fromLE (data3.take 8)
      let data4 := data3.drop 8
      let sideLen := fromLE (data4.take 8)
      let data5 := data4.drop 8
      if data5.length < sideLen then .panic
      else
        let side := data5.take sideLen
        let data6 := data5.drop sideLen
        if data6.length < 32 then .panic
        else
          let auctionID := data6.take 32
          let data7 := data6.drop 32
          if data7.length < 2 then .panic
          else
            let nonce := data7.take 2
            let data8 := data7.drop 2
            if data8.length < 8 then .panic
            else
              let sigLen := fromLE (data8.take 8)
              let data9 := data8.drop 8
              if data9.length < sigLen then .panic
              else
                .ok { a with
                  Pubkey := pubkey
                  TradingPair := tp
                  AmountHave := amountHave
                  AmountWant := amountWant
                  Side := side
                  AuctionID := auctionID
                  Nonce := nonce
                  Signature := data9.take sigLen }

/-- The Go zero value of `AuctionOrder`, as produced by
`new(AuctionOrder)`. -/
def zeroOrder : AuctionOrder :=
  { Pubkey := List.replicate 33 0
    Side := []
    TradingPair := ⟨0, 0⟩
    AmountHave := 0
    AmountWant := 0
    OrderbookPrice := .finite 0
    AuctionID := List.replicate 32 0
    Nonce := List.replicate 2 0
    Signature := [] }

theorem pairSerialize_length (p : Pair) : p.Serialize.length = 2 := rfl

theorem pair_deserialize_serialize (p : Pair) :
    Pair.Deserialize p.Serialize = .ok p := rfl

theorem nat_add_not_lt (x y : Nat) : ¬ (x + y < x) := by omega

theorem pow256_8 : 256 ^ 8 = 2 ^ 64 := by norm_num

/-- Master parsing lemma: deserializing the serialization of a
well-formed order — with any trailing bytes — into any receiver yields
the receiver with all wire fields overwritten by the original order's. -/
theorem deserialize_serialize_append (fresh a : AuctionOrder)
    (t : List Nat) (h : a.wf) :
    fresh.Deserialize (a.Serialize ++ t) =
      .ok { fresh with
        Pubkey := a.Pubkey
        TradingPair := a.TradingPair
        AmountHave := a.AmountHave
        AmountWant := a.AmountWant
        Side := a.Side
        AuctionID := a.AuctionID
        Nonce := a.Nonce
        Signature := a.Signature } := by
  obtain ⟨hpk, -, -, hsl, -, -, hah, haw, haid, -, hn, -, -, hgl⟩ := h
  have hah' : a.AmountHave < 256 ^ 8 := pow256_8 ▸ hah
  have haw' : a.AmountWant < 256 ^ 8 := pow256_8 ▸ haw
  have hsl' : a.Side.length < 256 ^ 8 := pow256_8 ▸ hsl
  have hgl' : a.Signature.length < 256 ^ 8 := pow256_8 ▸ hgl
  have hlen : ¬ ((a.Serialize ++ t).length < minimumDataLength) := by
    simp only [AuctionOrder.Serialize, minimumDataLength, Pair.Size,
      List.length_append, toLE_length, pairSerialize_length, hpk, haid, hn]
    omega
  unfold AuctionOrder.Deserialize
  rw [if_neg hlen]
  simp only [AuctionOrder.Serialize, List.append_assoc,
    take_append_exact hpk, drop_append_exact hpk,
    take_append_exact (pairSerialize_length a.TradingPair),
    drop_append_exact (pairSerialize_length a.TradingPair),
    pair_deserialize_serialize,
    take_append_exact (toLE_length 8 a.AmountHave),
    drop_append_exact (toLE_length 8 a.AmountHave),
    take_append_exact (toLE_length 8 a.AmountWant),
    drop_append_exact (toLE_length 8 a.AmountWant),
    take_append_exact (toLE_length 8 a.Side.length),
    drop_append_exact (toLE_length 8 a.Side.length),
    take_append_exact (toLE_length 8 a.Signature.length),
    drop_append_exact (toLE_length 8 a.Signature.length),
    fromLE_toLE_of_lt hah', fromLE_toLE_of_lt haw',
    fromLE_toLE_of_lt hsl', fromLE_toLE_of_lt hgl',
    take_append_exact (Eq.refl a.Side.length),
    drop_append_exact (Eq.refl a.Side.length),
    take_append_exact haid, drop_append_exact haid,
    take_append_exact hn, drop_append_exact hn,
    take_append_exact (Eq.refl a.Signature.length),
    List.length_append, toLE_length, nat_add_not_lt,
    haid, hn, hpk, if_false]

/-- The error message of the divide-by-zero branch of `Price`. -/
def zeroAmountMsg : String :=
  "The amount requested in the order is 0, so no price can be calculated. Consider it a donation"

/-- The error message of the invalid-side branch of `Price`. -/
def notBuyOrSellMsg : String :=
  "Order is not buy or sell, cannot calculate price"

/-- `AuctionOrder.Price`, mirroring the Go control flow exactly: when
`AmountWant == 0` it returns the zero float and an error; the buy branch
returns its quotient; the sell branch sets the quotient but — having no
`return` statement — falls through to the trailing assignment of the
invalid-side error, so a sell order returns its price together with a
non-nil error; any other side returns the zero float and the
invalid-side error. -/
def AuctionOrder.Price (a : AuctionOrder) : GoFloat × Option String :=
  if a.AmountWant = 0 then (.finite 0, some zeroAmountMsg)
  else if a.IsBuySide then
    (goDiv (a.AmountWant : ℚ) (a.AmountHave : ℚ), none)
  else if a.IsSellSide then
    (goDiv (a.AmountHave : ℚ) (a.AmountWant : ℚ), some notBuyOrSellMsg)
  else (.finite 0, some notBuyOrSellMsg)

/-- `AuctionOrder.SetAmountWant`: rejects a non-positive price; for buy
sets `AmountWant = uint64(float64(AmountHave) * price)` and for sell
`uint64(float64(AmountHave) / price)` — Go's float-to-uint64 conversion
truncates toward zero, modeled by `Int.floor` (the operands are
nonnegative here); any other side leaves the order unchanged and
returns an error. -/
def AuctionOrder.SetAmountWant (a : AuctionOrder) (price : ℚ) :
    AuctionOrder × Option String :=
  if price ≤ 0 then (a, some "Price can't be less than or equal to 0")
  else if a.IsBuySide then
    ({ a with AmountWant := (Int.floor ((a.AmountHave : ℚ) * price)).toNat }, none)
  else if a.IsSellSide then
    ({ a with AmountWant := (Int.floor ((a.AmountHave : ℚ) / price)).toNat }, none)
  else (a, some "Invalid side for order, must be buy or sell")

/-- Modelled from the spec: the closed set of registered puzzle
variants — the RSW modular-squaring puzzle (`rsw.PuzzleRSW`) and the
hash-chain time-lock (`hashtimelock.HashTimelock`), both repository
code not under `src/`. Each variant's payload shape is opaque bytes
behind its tag. -/
inductive Puzzle where
  | rsw (payload : List Nat)
  | hashTimelock (payload : List Nat)
  deriving DecidableEq, Repr

/-- `match.EncryptedAuctionOrder`: ciphertext, puzzle, and the
32-byte intended auction id. -/
structure EncryptedAuctionOrder where
  OrderCiphertext : List Nat
  OrderPuzzle : Puzzle
  IntendedAuction : List Nat
  deriving DecidableEq, Repr

/-- `match.OrderPuzzleResult`: the originating encrypted order, the
decoded order when present, and the error when present. -/
structure OrderPuzzleResult where
  Encrypted : EncryptedAuctionOrder
  Auction : Option AuctionOrder
  Err : Option String
  deriving DecidableEq, Repr

/-- `SolveRC5AuctionOrderAsync`, with the external
`timelockencoders.SolvePuzzleRC5` passed in as `solve` and the channel
modeled as the list of emitted results. A failed solve emits one result
carrying the solve error and no order; a successful solve feeds the
bytes to `Deserialize` on a fresh zero order (`new(AuctionOrder)`): a
returned decode error emits one result carrying that error, success
emits one result with the decoded order and no error — and a Go panic
inside `Deserialize` crashes the goroutine, so nothing is emitted. -/
def SolveRC5AuctionOrderAsync
    (solve : List Nat → Puzzle → Except String (List Nat))
    (e : EncryptedAuctionOrder) : List OrderPuzzleResult :=
  match solve e.OrderCiphertext e.OrderPuzzle with
  | .error msg =>
      [⟨e, none, some ("Error solving RC5 puzzle for auction order: " ++ msg)⟩]
  | .ok orderBytes =>
      match zeroOrder.Deserialize orderBytes with
      | .err msg =>
          [⟨e, some zeroOrder,
            some ("Error deserializing order gotten from puzzle: " ++ msg)⟩]
      | .panic => []
      | .ok ord => [⟨e, some ord, none⟩]

/-- `AuctionOrder.TurnIntoEncryptedOrder`, with the external
`timelockencoders.CreateRSW2048A2PuzzleRC5` passed in as `create`: on
success the ciphertext/puzzle pair is exactly `create t (Serialize a)`
and the intended auction is the order's `AuctionID`. -/
def AuctionOrder.TurnIntoEncryptedOrder
    (create : Nat → List Nat → Except String (List Nat × Puzzle))
    (a : AuctionOrder) (t : Nat) : Except String EncryptedAuctionOrder :=
  match create t a.Serialize with
  | .error msg => .error ("Error creating puzzle from auction order: " ++ msg)
  | .ok (ct, pz) => .ok ⟨ct, pz, a.AuctionID⟩

/-- Modelled from the spec: the envelope codec (the Go code delegates to
`encoding/gob` with the two puzzle variants registered; gob and the
variant types are not under `src/`). The spec's wire layout: a
length-prefixed ciphertext, the puzzle as a variant tag plus payload,
then the fixed 32-byte intended auction. Tags 0 and 1 are the two
registered variants. -/
def Puzzle.tag : Puzzle → Nat
  | .rsw _ => 0
  | .hashTimelock _ => 1

/-- Modelled from the spec: a puzzle variant's opaque payload bytes. -/
def Puzzle.payload : Puzzle → List Nat
  | .rsw p => p
  | .hashTimelock p => p

/-- Modelled from the spec: read a length-prefixed byte field — an
8-byte little-endian length followed by that many bytes — returning the
field and the remaining input, or an error when the input is shorter
than announced. -/
def readLenPrefixed (data : List Nat) : Except String (List Nat × List Nat) :=
  if data.length < 8 then .error "short length prefix"
  else
    if (data.drop 8).length < fromLE (data.take 8) then .error "short payload"
    else .ok ((data.drop 8).take (fromLE (data.take 8)),
              (data.drop 8).drop (fromLE (data.take 8)))

theorem readLenPrefixed_append (x r : List Nat) (h : x.length < 256 ^ 8) :
    readLenPrefixed (toLE 8 x.length ++ (x ++ r)) = .ok (x, r) := by
  simp only [readLenPrefixed, List.length_append, toLE_length,
    take_append_exact (toLE_length 8 x.length),
    drop_append_exact (toLE_length 8 x.length),
    fromLE_toLE_of_lt h,
    take_append_exact (Eq.refl x.length),
    drop_append_exact (Eq.refl x.length),
    nat_add_not_lt, if_false]

/-- Modelled from the spec: encode a puzzle as variant tag ·
payloadLength[8 LE] · payload. -/
def encodePuzzle (p : Puzzle) : List Nat :=
  p.tag :: toLE 8 p.payload.length ++ p.payload

/-- The error given for a puzzle tag outside the decoder table. -/
def unknownVariantMsg : String := "unknown puzzle variant tag"

/-- Modelled from the spec: decode a puzzle by looking its tag up in the
tag-to-decoder table; an unregistered tag is an UnknownVariantError.
Returns the remaining input. -/
def decodePuzzle (data : List Nat) : Except String (Puzzle × List Nat) :=
  match data with
  | [] => .error "empty puzzle encoding"
  | tag :: rest =>
      match readLenPrefixed rest with
      | .error msg => .error msg
      | .ok (payload, rest2) =>
          if tag = 0 then .ok (.rsw payload, rest2)
          else if tag = 1 then .ok (.hashTimelock payload, rest2)
          else .error unknownVariantMsg

theorem decodePuzzle_cons (tag : Nat) (rest : List Nat) :
    decodePuzzle (tag :: rest) =
      match readLenPrefixed rest with
      | Except.error msg => Except.error msg
      | Except.ok (payload, rest2) =>
          if tag = 0 then Except.ok (Puzzle.rsw payload, rest2)
          else if tag = 1 then Except.ok (Puzzle.hashTimelock payload, rest2)
          else Except.error unknownVariantMsg := rfl

theorem decodePuzzle_encode (pz : Puzzle) (r : List Nat)
    (h : pz.payload.length < 256 ^ 8) :
    decodePuzzle (encodePuzzle pz ++ r) = .ok (pz, r) := by
  cases pz with
  | rsw p =>
      simp only [Puzzle.payload] at h
      simp only [encodePuzzle, decodePuzzle, Puzzle.tag, Puzzle.payload,
        List.cons_append, List.append_assoc, readLenPrefixed_append p r h,
        if_true]
  | hashTimelock p =>
      simp only [Puzzle.payload] at h
      simp only [encodePuzzle, decodePuzzle, Puzzle.tag, Puzzle.payload,
        List.cons_append, List.append_assoc, readLenPrefixed_append p r h]
      norm_num

theorem decodePuzzle_unknown_tag (tag : Nat) (rest : List Nat)
    (h : rest.length < 256 ^ 8) (htag : 2 ≤ tag) :
    decodePuzzle (tag :: (toLE 8 rest.length ++ rest)) =
      .error unknownVariantMsg := by
  have ht0 : ¬ (tag = 0) := by omega
  have ht1 : ¬ (tag = 1) := by omega
  have hr : readLenPrefixed (toLE 8 rest.length ++ (rest ++ [])) =
      .ok (rest, []) :=
    readLenPrefixed_append rest [] h
  rw [List.append_nil] at hr
  rw [decodePuzzle_cons, hr]
  simp only [ht0, ht1, if_false]

/-- Modelled from the spec: serialize the whole envelope —
ciphertextLength[8 LE] · ciphertext · puzzle · intendedAuction[32]. -/
def EncryptedAuctionOrder.Serialize (e : EncryptedAuctionOrder) : List Nat :=
  toLE 8 e.OrderCiphertext.length ++ e.OrderCiphertext ++
  encodePuzzle e.OrderPuzzle ++ e.IntendedAuction

/-- Modelled from the spec: deserialize an envelope, preserving the
concrete puzzle variant via the tag dispatch of `decodePuzzle`; the
fixed 32-byte intended auction closes the envelope. -/
def EncryptedAuctionOrder.Deserialize (data : List Nat) :
    Except String EncryptedAuctionOrder :=
  match readLenPrefixed data with
  | .error msg => .error msg
  | .ok (ct, rest) =>
      match decodePuzzle rest with
      | .error msg => .error msg
      | .ok (pz, rest2) =>
          if rest2.length = 32 then .ok ⟨ct, pz, rest2⟩
          else .error "envelope auction id must be 32 bytes"

/-- Well-formedness of an envelope as a Go value: lengths fit in 64
bits and the auction id is 32 bytes. -/
def EncryptedAuctionOrder.wf (e : EncryptedAuctionOrder) : Prop :=
  e.OrderCiphertext.length < 2 ^ 64 ∧
  e.OrderPuzzle.payload.length < 2 ^ 64 ∧
  e.IntendedAuction.length = 32

instance (e : EncryptedAuctionOrder) : Decidable e.wf := by
  unfold EncryptedAuctionOrder.wf; infer_instance

/-- A concrete well-formed buy order used to instantiate theorems. -/
def sampleBuyOrder : AuctionOrder :=
  { Pubkey := List.replicate 33 7
    Side := buyBytes
    TradingPair := ⟨1, 2⟩
    AmountHave := 100
    AmountWant := 200
    OrderbookPrice := .finite 0
    AuctionID := List.replicate 32 3
    Nonce := [4, 5]
    Signature := [9, 8] }

/-- A concrete well-formed sell order used to instantiate theorems. -/
def sampleSellOrder : AuctionOrder :=
  { sampleBuyOrder with Side := sellBytes, AmountHave := 200, AmountWant := 100 }

/-- C1: for every valid `AuctionOrder` `a`, deserializing `Serialize a`
(into any receiver) succeeds and recovers `Pubkey`, `Side`,
`TradingPair`, `AmountHave`, `AmountWant`, `AuctionID`, `Nonce` and
`Signature` exactly; only `OrderbookPrice` is not recovered. -/
theorem auctionOrder_serialize_roundtrip (fresh a : AuctionOrder) (h : a.wf) :
    ∃ b, fresh.Deserialize a.Serialize = .ok b ∧
      b.Pubkey = a.Pubkey ∧ b.Side = a.Side ∧ b.TradingPair = a.TradingPair ∧
      b.AmountHave = a.AmountHave ∧ b.AmountWant = a.AmountWant ∧
      b.AuctionID = a.AuctionID ∧ b.Nonce = a.Nonce ∧
      b.Signature = a.Signature := by
  have hx := deserialize_serialize_append fresh a [] h
  rw [List.append_nil] at hx
  exact ⟨_, hx, rfl, rfl, rfl, rfl, rfl, rfl, rfl, rfl⟩

/-- C1 witness: the round trip at a concrete well-formed order. -/
theorem auctionOrder_serialize_roundtrip_witness :
    sampleBuyOrder.wf ∧
    ∃ b, zeroOrder.Deserialize sampleBuyOrder.Serialize = .ok b ∧
      b.Pubkey = sampleBuyOrder.Pubkey ∧ b.Side = sampleBuyOrder.Side ∧
      b.TradingPair = sampleBuyOrder.TradingPair ∧
      b.AmountHave = sampleBuyOrder.AmountHave ∧
      b.AmountWant = sampleBuyOrder.AmountWant ∧
      b.AuctionID = sampleBuyOrder.AuctionID ∧
      b.Nonce = sampleBuyOrder.Nonce ∧
      b.Signature = sampleBuyOrder.Signature :=
  ⟨by decide, auctionOrder_serialize_roundtrip zeroOrder sampleBuyOrder (by decide)⟩

/-- C9: trailing bytes after a serialized order are silently ignored:
deserializing `Serialize a ++ t` succeeds and equals deserializing
`Serialize a` alone, for every valid order `a` and every suffix `t`. -/
theorem deserialize_ignores_trailing_bytes (fresh a : AuctionOrder)
    (t : List Nat) (h : a.wf) :
    (∃ b, fresh.Deserialize (a.Serialize ++ t) = .ok b) ∧
    fresh.Deserialize (a.Serialize ++ t) = fresh.Deserialize a.Serialize := by
  have h1 := deserialize_serialize_append fresh a t h
  have h2 := deserialize_serialize_append fresh a [] h
  rw [List.append_nil] at h2
  exact ⟨⟨_, h1⟩, h1.trans h2.symm⟩

/-- C9 witness: trailing bytes ignored at a concrete order and suffix. -/
theorem deserialize_ignores_trailing_bytes_witness :
    sampleSellOrder.wf ∧
    ((∃ b, zeroOrder.Deserialize (sampleSellOrder.Serialize ++ [0, 1, 2]) = .ok b) ∧
      zeroOrder.Deserialize (sampleSellOrder.Serialize ++ [0, 1, 2]) =
        zeroOrder.Deserialize sampleSellOrder.Serialize) :=
  ⟨by decide,
   deserialize_ignores_trailing_bytes zeroOrder sampleSellOrder [0, 1, 2] (by decide)⟩

/-- C4 counterexample: 93 zero bytes pass the minimum-length check
(93 is exactly `minimumDataLength`) and drive `Deserialize` to an
out-of-range slice read — a Go panic — at the signature-length field,
refuting the claim that the check keeps all subsequent reads in
bounds. -/
theorem deserialize_minlength_panic_counterexample :
    ¬ ((List.replicate 93 0).length < minimumDataLength) ∧
    zeroOrder.Deserialize (List.replicate 93 0) = DeserResult.panic := by
  decide

/-- C4 amended: `Deserialize` computes a 93-byte minimum length from the
fixed-size fields (counting the 8-byte `OrderbookPrice`, which is not on
the wire, and missing one of the two 8-byte length prefixes) and rejects
any shorter input with an error before reading any field; the check does
NOT make the remaining reads safe (see the counterexample). -/
theorem deserialize_rejects_short_input (a : AuctionOrder)
    (data : List Nat) (h : data.length < minimumDataLength) :
    minimumDataLength = 93 ∧
    a.Deserialize data = .err "Auction order cannot be less than bytes" := by
  refine ⟨by decide, ?_⟩
  unfold AuctionOrder.Deserialize
  rw [if_pos h]

/-- C4 witness: the length rejection at a concrete short input. -/
theorem deserialize_rejects_short_input_witness :
    ([(1 : Nat), 2, 3].length < minimumDataLength) ∧
    (minimumDataLength = 93 ∧
      zeroOrder.Deserialize [1, 2, 3] =
        .err "Auction order cannot be less than bytes") :=
  ⟨by decide, deserialize_rejects_short_input zeroOrder [1, 2, 3] (by decide)⟩

/-- C6: `SerializeSignable a` is byte-for-byte a prefix of
`Serialize a`: the two agree through the nonce, and `Serialize` appends
exactly the signature length and the signature after it. -/
theorem serializeSignable_prefix_of_serialize (a : AuctionOrder) :
    a.Serialize =
      a.SerializeSignable ++ (toLE 8 a.Signature.length ++ a.Signature) ∧
    List.IsPrefix a.SerializeSignable a.Serialize := by
  have heq : a.Serialize =
      a.SerializeSignable ++ (toLE 8 a.Signature.length ++ a.Signature) := by
    simp [AuctionOrder.Serialize, AuctionOrder.SerializeSignable,
      List.append_assoc]
  exact ⟨heq, ⟨toLE 8 a.Signature.length ++ a.Signature, heq.symm⟩⟩

/-- C3: evaluating `Price` at the failing input — a sell order with
`AmountHave = 200`, `AmountWant = 100` — the code computes the price 2
but ALSO returns the "not buy or sell" error, because the sell branch
of the Go function sets `price` and then falls through (missing
`return`) to the trailing error assignment; the claim (and the spec)
say a sell order with positive `AmountWant` returns its price with no
error. -/
theorem price_sell_branch_returns_error :
    sampleSellOrder.Price = (GoFloat.finite 2, some notBuyOrSellMsg) := by
  have hw : ¬ (sampleSellOrder.AmountWant = 0) := by decide
  have hb : ¬ (sampleSellOrder.IsBuySide = true) := by decide
  have hs : sampleSellOrder.IsSellSide = true := by decide
  unfold AuctionOrder.Price
  rw [if_neg hw, if_neg hb, if_pos hs]
  have hq : goDiv ((sampleSellOrder.AmountHave : ℚ))
      ((sampleSellOrder.AmountWant : ℚ)) = GoFloat.finite 2 := by
    show goDiv (((200 : Nat) : ℚ)) (((100 : Nat) : ℚ)) = GoFloat.finite 2
    rw [goDiv, if_neg (by norm_num : ¬ (((100 : Nat) : ℚ) = 0))]
    norm_num
  rw [hq]

/-- C10: a buy-side order with `AmountHave = 0` and `AmountWant > 0`
passes the divide-by-zero guard (which tests only `AmountWant`), the
division `AmountWant / AmountHave` is performed anyway, and `Price`
returns — with no error — the IEEE result `+Inf`. -/
theorem price_buy_zero_amountHave_no_error (a : AuctionOrder)
    (hside : a.Side = buyBytes) (hhave : a.AmountHave = 0)
    (hwant : 0 < a.AmountWant) :
    a.Price = (goDiv (a.AmountWant : ℚ) ((a.AmountHave : ℚ)), none) ∧
    a.Price = (GoFloat.posInf, none) := by
  have hw0 : a.AmountWant ≠ 0 := Nat.pos_iff_ne_zero.mp hwant
  have hb : a.IsBuySide = true := by
    simp [AuctionOrder.IsBuySide, hside]
  have hcast : (0 : ℚ) < (a.AmountWant : ℚ) := by exact_mod_cast hwant
  refine ⟨by simp [AuctionOrder.Price, hw0, hb], ?_⟩
  simp [AuctionOrder.Price, hw0, hb, hhave, goDiv, hcast, hcast.ne']

/-- A buy order with nothing to give: `AmountHave = 0`, positive
`AmountWant`. -/
def sampleZeroHaveBuyOrder : AuctionOrder :=
  { sampleBuyOrder with AmountHave := 0, AmountWant := 5 }

/-- C10 witness: the no-error infinite price at a concrete order. -/
theorem price_buy_zero_amountHave_no_error_witness :
    sampleZeroHaveBuyOrder.Side = buyBytes ∧
    sampleZeroHaveBuyOrder.AmountHave = 0 ∧
    0 < sampleZeroHaveBuyOrder.AmountWant ∧
    (sampleZeroHaveBuyOrder.Price =
        (goDiv (sampleZeroHaveBuyOrder.AmountWant : ℚ)
          ((sampleZeroHaveBuyOrder.AmountHave : ℚ)), none) ∧
      sampleZeroHaveBuyOrder.Price = (GoFloat.posInf, none)) :=
  ⟨rfl, rfl, by decide,
   price_buy_zero_amountHave_no_error sampleZeroHaveBuyOrder rfl rfl (by decide)⟩

/-- A buy order holding a single unit, exposing the truncation in
`SetAmountWant`. -/
def sampleUnitBuyOrder : AuctionOrder :=
  { sampleBuyOrder with AmountHave := 1 }

/-- C5 counterexample: a buy order with `AmountHave = 1` after
`SetAmountWant (3/2)` has `AmountWant = 1` — Go's `uint64(...)`
conversion truncates `1.5` toward zero — while the claim's
`round(amountHave * price) = round(1.5) = 2`. -/
theorem setAmountWant_truncates_not_rounds :
    (sampleUnitBuyOrder.SetAmountWant (3 / 2)).1.AmountWant = 1 ∧
    round ((sampleUnitBuyOrder.AmountHave : ℚ) * (3 / 2)) = 2 := by
  have hp : ¬ ((3 / 2 : ℚ) ≤ 0) := by norm_num
  have hb : sampleUnitBuyOrder.IsBuySide = true := by decide
  constructor
  · unfold AuctionOrder.SetAmountWant
    rw [if_neg hp, if_pos hb]
    show (Int.floor ((((1 : Nat)) : ℚ) * (3 / 2))).toNat = 1
    norm_num
  · show round ((((1 : Nat)) : ℚ) * (3 / 2)) = 2
    norm_num [round_eq]

/-- C5 amended: `SetAmountWant price` fails when `price ≤ 0` or when the
side is neither buy nor sell, leaving the order unchanged; otherwise it
sets `AmountWant` to the TRUNCATION (floor, the operands being
nonnegative) of `amountHave * price` for buy and of
`amountHave / price` for sell — not the nearest integer; and when the
buy product is a positive whole number `k` and `AmountHave > 0`, the
stored amount is exactly `k` and `Price` recomputes to exactly the
price that was set. -/
theorem setAmountWant_characterization (a : AuctionOrder) (price : ℚ) :
    (price ≤ 0 →
      a.SetAmountWant price = (a, some "Price can't be less than or equal to 0")) ∧
    (0 < price → a.IsBuySide = true →
      a.SetAmountWant price =
        ({ a with AmountWant := (Int.floor ((a.AmountHave : ℚ) * price)).toNat },
          none)) ∧
    (0 < price → a.IsSellSide = true →
      a.SetAmountWant price =
        ({ a with AmountWant := (Int.floor ((a.AmountHave : ℚ) / price)).toNat },
          none)) ∧
    (0 < price → a.IsBuySide = false → a.IsSellSide = false →
      a.SetAmountWant price =
        (a, some "Invalid side for order, must be buy or sell")) ∧
    (∀ k : Nat, 0 < k → ((a.AmountHave : ℚ) * price = (k : ℚ)) →
      0 < a.AmountHave → a.IsBuySide = true → 0 < price →
      ((a.SetAmountWant price).1.AmountWant = k ∧
        (a.SetAmountWant price).1.Price = (GoFloat.finite price, none))) := by
  refine ⟨?_, ?_, ?_, ?_, ?_⟩
  · intro hp
    simp [AuctionOrder.SetAmountWant, hp]
  · intro hp hb
    simp [AuctionOrder.SetAmountWant, not_le.mpr hp, hb]
  · intro hp hs
    have hb : a.IsBuySide = false := by
      cases hhb : a.IsBuySide with
      | false => rfl
      | true =>
          exfalso
          have h1 : a.Side = buyBytes := by
            simpa [AuctionOrder.IsBuySide] using hhb
          have h2 : a.Side = sellBytes := by
            simpa [AuctionOrder.IsSellSide] using hs
          rw [h1] at h2
          exact absurd h2 (by decide)
    simp [AuctionOrder.SetAmountWant, not_le.mpr hp, hb, hs]
  · intro hp hb hs
    simp [AuctionOrder.SetAmountWant, not_le.mpr hp, hb, hs]
  · intro k hk hmul hhave hb hp
    have hka : a.SetAmountWant price =
        ({ a with AmountWant := (Int.floor ((a.AmountHave : ℚ) * price)).toNat },
          none) := by
      simp [AuctionOrder.SetAmountWant, not_le.mpr hp, hb]
    have hfl : (Int.floor ((a.AmountHave : ℚ) * price)).toNat = k := by
      rw [hmul]
      simp
    have hset : a.SetAmountWant price = ({ a with AmountWant := k }, none) := by
      rw [hka, hfl]
    refine ⟨by rw [hset], ?_⟩
    rw [hset]
    have hk0 : ¬ (({ a with AmountWant := k } : AuctionOrder).AmountWant = 0) :=
      Nat.pos_iff_ne_zero.mp hk
    have hbk : ({ a with AmountWant := k } : AuctionOrder).IsBuySide = true := hb
    have hhq : ¬ (((a.AmountHave : ℚ)) = 0) := by
      exact_mod_cast Nat.pos_iff_ne_zero.mp hhave
    unfold AuctionOrder.Price
    rw [if_neg hk0, if_pos hbk]
    have hdiv : goDiv ((k : ℚ)) ((a.AmountHave : ℚ)) = GoFloat.finite price := by
      rw [goDiv, if_neg hhq]
      have hq : ((k : ℚ)) / ((a.AmountHave : ℚ)) = price := by
        rw [← hmul]
        field_simp
      rw [hq]
    show (goDiv ((k : ℚ)) ((a.AmountHave : ℚ)), (none : Option String)) =
      (GoFloat.finite price, none)
    rw [hdiv]

/-- C5 witness: buy order with `AmountHave = 100`, `SetAmountWant 2`
stores 200 and `Price` recomputes to exactly 2. -/
theorem setAmountWant_characterization_witness :
    (sampleBuyOrder.SetAmountWant 2).1.AmountWant = 200 ∧
    (sampleBuyOrder.SetAmountWant 2).1.Price = (GoFloat.finite 2, none) :=
  (setAmountWant_characterization sampleBuyOrder 2).2.2.2.2 200 (by decide)
    (by push_cast; norm_num [sampleBuyOrder]) (by decide) (by decide)
    (by norm_num)

/-- A concrete encrypted order for pipeline theorems. -/
def sampleEncOrder : EncryptedAuctionOrder :=
  ⟨[1, 2, 3], .rsw [7], List.replicate 32 0⟩

/-- C2 counterexample: when the puzzle solve succeeds but the solved
bytes (93 zero bytes) drive `Deserialize` into an out-of-range read,
the goroutine panics before sending: zero results are emitted for this
invocation, not exactly one. -/
theorem solveAsync_no_emission_on_decode_panic :
    SolveRC5AuctionOrderAsync (fun _ _ => Except.ok (List.replicate 93 0))
      sampleEncOrder = [] := by
  decide

/-- C2 amended: at most one result is emitted per invocation, every
emitted result references the originating encrypted order, a solve
failure emits exactly one result carrying the solve error with no
decode attempt, a decode error after a successful solve emits exactly
one result carrying the decode error, a fully successful decode emits
exactly one result carrying the order and no error — but when
`Deserialize` panics on the solved bytes, the goroutine dies and
nothing is emitted. -/
theorem solveAsync_emission_characterization
    (solve : List Nat → Puzzle → Except String (List Nat))
    (e : EncryptedAuctionOrder) :
    (∀ r ∈ SolveRC5AuctionOrderAsync solve e, r.Encrypted = e) ∧
    (SolveRC5AuctionOrderAsync solve e).length ≤ 1 ∧
    (∀ msg, solve e.OrderCiphertext e.OrderPuzzle = .error msg →
      SolveRC5AuctionOrderAsync solve e =
        [⟨e, none, some ("Error solving RC5 puzzle for auction order: " ++ msg)⟩]) ∧
    (∀ bs msg, solve e.OrderCiphertext e.OrderPuzzle = .ok bs →
      zeroOrder.Deserialize bs = .err msg →
      SolveRC5AuctionOrderAsync solve e =
        [⟨e, some zeroOrder,
          some ("Error deserializing order gotten from puzzle: " ++ msg)⟩]) ∧
    (∀ bs ord, solve e.OrderCiphertext e.OrderPuzzle = .ok bs →
      zeroOrder.Deserialize bs = .ok ord →
      SolveRC5AuctionOrderAsync solve e = [⟨e, some ord, none⟩]) ∧
    (∀ bs, solve e.OrderCiphertext e.OrderPuzzle = .ok bs →
      zeroOrder.Deserialize bs = .panic →
      SolveRC5AuctionOrderAsync solve e = []) := by
  refine ⟨?_, ?_, ?_, ?_, ?_, ?_⟩
  · intro r hr
    unfold SolveRC5AuctionOrderAsync at hr
    cases hs : solve e.OrderCiphertext e.OrderPuzzle with
    | error msg =>
        rw [hs] at hr
        simp at hr
        rw [hr]
    | ok bs =>
        rw [hs] at hr
        cases hd : zeroOrder.Deserialize bs with
        | ok ord =>
            simp [hd] at hr
            rw [hr]
        | err msg =>
            simp [hd] at hr
            rw [hr]
        | panic =>
            simp [hd] at hr
  · unfold SolveRC5AuctionOrderAsync
    cases solve e.OrderCiphertext e.OrderPuzzle with
    | error msg => simp
    | ok bs =>
        cases hd : zeroOrder.Deserialize bs with
        | ok ord => simp [hd]
        | err msg => simp [hd]
        | panic => simp [hd]
  · intro msg hmsg
    simp [SolveRC5AuctionOrderAsync, hmsg]
  · intro bs msg h1 h2
    simp [SolveRC5AuctionOrderAsync, h1, h2]
  · intro bs ord h1 h2
    simp [SolveRC5AuctionOrderAsync, h1, h2]
  · intro bs h1 h2
    simp [SolveRC5AuctionOrderAsync, h1, h2]

/-- C2 witness: a failing solve emits exactly the one error-carrying
result referencing the originating encrypted order. -/
theorem solveAsync_emission_characterization_witness :
    SolveRC5AuctionOrderAsync (fun _ _ => Except.error "boom") sampleEncOrder =
      [⟨sampleEncOrder, none,
        some ("Error solving RC5 puzzle for auction order: " ++ "boom")⟩] :=
  ((solveAsync_emission_characterization (fun _ _ => Except.error "boom")
      sampleEncOrder).2.2.1) "boom" rfl

/-- C7: whenever `TurnIntoEncryptedOrder` succeeds, the resulting
envelope's `IntendedAuction` is exactly the order's `AuctionID`, and
its ciphertext and puzzle are exactly the pair produced by the puzzle
algebra's `create` applied to the time parameter and `Serialize a`. -/
theorem turnIntoEncryptedOrder_binding
    (create : Nat → List Nat → Except String (List Nat × Puzzle))
    (a : AuctionOrder) (t : Nat) (enc : EncryptedAuctionOrder)
    (h : a.TurnIntoEncryptedOrder create t = .ok enc) :
    enc.IntendedAuction = a.AuctionID ∧
    create t a.Serialize = .ok (enc.OrderCiphertext, enc.OrderPuzzle) := by
  cases hc : create t a.Serialize with
  | error msg =>
      rw [AuctionOrder.TurnIntoEncryptedOrder, hc] at h
      simp at h
  | ok pr =>
      obtain ⟨ct, pz⟩ := pr
      rw [AuctionOrder.TurnIntoEncryptedOrder, hc] at h
      simp only [Except.ok.injEq] at h
      subst h
      exact ⟨rfl, rfl⟩

/-- C7 witness: the auction binding at a concrete order and a concrete
`create`. -/
theorem turnIntoEncryptedOrder_binding_witness :
    sampleBuyOrder.TurnIntoEncryptedOrder
        (fun t bs => Except.ok (bs, Puzzle.rsw [t])) 5 =
      Except.ok ⟨sampleBuyOrder.Serialize, Puzzle.rsw [5],
        sampleBuyOrder.AuctionID⟩ ∧
    (⟨sampleBuyOrder.Serialize, Puzzle.rsw [5],
        sampleBuyOrder.AuctionID⟩ : EncryptedAuctionOrder).IntendedAuction =
      sampleBuyOrder.AuctionID ∧
    (fun t bs => (Except.ok (bs, Puzzle.rsw [t]) :
        Except String (List Nat × Puzzle))) 5 sampleBuyOrder.Serialize =
      Except.ok
        ((⟨sampleBuyOrder.Serialize, Puzzle.rsw [5],
            sampleBuyOrder.AuctionID⟩ : EncryptedAuctionOrder).OrderCiphertext,
          (⟨sampleBuyOrder.Serialize, Puzzle.rsw [5],
            sampleBuyOrder.AuctionID⟩ : EncryptedAuctionOrder).OrderPuzzle) :=
  ⟨rfl, turnIntoEncryptedOrder_binding
    (fun t bs => Except.ok (bs, Puzzle.rsw [t])) sampleBuyOrder 5 _ rfl⟩

/-- A concrete well-formed envelope with the hash-chain variant. -/
def sampleEnvelope : EncryptedAuctionOrder :=
  ⟨[1, 2], .hashTimelock [3], List.replicate 32 9⟩

/-- C8: for every well-formed envelope whose puzzle is one of the
registered variants (RSW or hash-chain), deserializing its
serialization reproduces it exactly, including the concrete puzzle
variant; and decoding an envelope whose puzzle tag is not in the
decoder table fails with the unknown-variant error. -/
theorem envelope_roundtrip_and_unknown_tag (e : EncryptedAuctionOrder)
    (h : e.wf) :
    EncryptedAuctionOrder.Deserialize e.Serialize = .ok e ∧
    (∀ ct rest tag, ct.length < 2 ^ 64 → rest.length < 2 ^ 64 → 2 ≤ tag →
      EncryptedAuctionOrder.Deserialize
        (toLE 8 ct.length ++ ct ++ (tag :: (toLE 8 rest.length ++ rest))) =
      .error unknownVariantMsg) := by
  constructor
  · obtain ⟨ct, pz, aid⟩ := e
    obtain ⟨hct, hpl, haid⟩ := h
    have hct2 : ct.length < 256 ^ 8 := by rw [pow256_8]; exact hct
    have hpl2 : pz.payload.length < 256 ^ 8 := by rw [pow256_8]; exact hpl
    simp only [EncryptedAuctionOrder.Serialize, EncryptedAuctionOrder.Deserialize,
      List.append_assoc, readLenPrefixed_append _ _ hct2,
      decodePuzzle_encode _ _ hpl2, haid, if_true]
  · intro ct rest tag hctl hrl htag
    have hct2 : ct.length < 256 ^ 8 := by rw [pow256_8]; exact hctl
    have hrl2 : rest.length < 256 ^ 8 := by rw [pow256_8]; exact hrl
    simp only [EncryptedAuctionOrder.Deserialize, List.append_assoc,
      readLenPrefixed_append _ _ hct2,
      decodePuzzle_unknown_tag tag rest hrl2 htag]

/-- C8 witness: the round trip at a concrete hash-chain envelope, and
the rejection of a concrete tag-7 envelope. -/
theorem envelope_roundtrip_and_unknown_tag_witness :
    sampleEnvelope.wf ∧
    EncryptedAuctionOrder.Deserialize sampleEnvelope.Serialize =
      .ok sampleEnvelope ∧
    EncryptedAuctionOrder.Deserialize
        (toLE 8 ([(1 : Nat), 2].length) ++ [1, 2] ++
          (7 :: (toLE 8 ([(3 : Nat)].length) ++ [3]))) =
      .error unknownVariantMsg :=
  ⟨by decide,
   (envelope_roundtrip_and_unknown_tag sampleEnvelope (by decide)).1,
   (envelope_roundtrip_and_unknown_tag sampleEnvelope (by decide)).2
     [1, 2] [3] 7 (by decide) (by decide) (by decide)⟩

end Opencx
